import Mathlib

/-!
Shallow embedding of the SonicWave music-library core (src/models.py,
src/data_structures.py, src/music_manager.py) and proofs of the spec claims.

Mutable Python objects are modelled by an explicit heap: every `Song` object
created by the library is stored at a fresh object id (oid), and every
container (master list, title tree, queue, stack, playlists, genre buckets,
track map) holds oids into that heap, mirroring Python reference semantics.
-/

namespace SonicWave

/-- Python string comparison `a < b`: lexicographic on code points
(a strict prefix is smaller). -/
def lexLt : List Char → List Char → Bool
  | [], [] => false
  | [], _ :: _ => true
  | _ :: _, [] => false
  | x :: xs, y :: ys => if x = y then lexLt xs ys else decide (x < y)

/-- Python `a < b` on `str`. -/
def strLt (a b : String) : Bool := lexLt a.data b.data

/-- Python substring test `needle in hay` on char lists (`[] in hay` is true). -/
def subLC : List Char → List Char → Bool
  | [], needle => needle.isEmpty
  | x :: t, needle => needle.isPrefixOf (x :: t) || subLC t needle

/-- Python `needle in hay` on `str`. -/
def strContains (hay needle : String) : Bool := subLC hay.data needle.data

/-- Python `str.lower()` on one character (the library only compares ASCII
case-insensitively). -/
def lowerChar (c : Char) : Char :=
  if 65 ≤ c.toNat ∧ c.toNat ≤ 90 then Char.ofNat (c.toNat + 32) else c

/-- Python `str.lower()`. -/
def lowerStr (s : String) : String := ⟨s.data.map lowerChar⟩

/-- The `Song` dataclass (src/models.py). -/
structure Song where
  song_id : Nat
  title : String
  artist : String
  album : String
  genre : String
  year : Nat
  duration_seconds : Nat
  file_path : String
  play_count : Nat
  is_favorite : Bool
deriving DecidableEq

/-- Well-typed values that `update_song` may assign to a `Song` attribute
(the error-handling design states the core assumes well-typed input). -/
inductive FieldVal where
  | natV (n : Nat)
  | strV (s : String)
  | boolV (b : Bool)
deriving DecidableEq

/-- One `setattr(s, k, v)` step of `MusicLibraryManager.update_song`, guarded by
`hasattr`: entries naming a `Song` attribute are applied, all others ignored. -/
def setAttr (s : Song) : String × FieldVal → Song
  | ("song_id", .natV n) => { s with song_id := n }
  | ("title", .strV v) => { s with title := v }
  | ("artist", .strV v) => { s with artist := v }
  | ("album", .strV v) => { s with album := v }
  | ("genre", .strV v) => { s with genre := v }
  | ("year", .natV n) => { s with year := n }
  | ("duration_seconds", .natV n) => { s with duration_seconds := n }
  | ("file_path", .strV v) => { s with file_path := v }
  | ("play_count", .natV n) => { s with play_count := n }
  | ("is_favorite", .boolV b) => { s with is_favorite := b }
  | _ => s

/-- The pairwise similarity score of `MusicLibraryManager._rebuild_graph`. -/
def similarityScore (a b : Song) : Nat :=
  (if a.artist ≠ "" ∧ b.artist ≠ "" ∧ lowerStr a.artist = lowerStr b.artist then 2 else 0)
  + (if a.genre ≠ "" ∧ b.genre ≠ "" ∧ lowerStr a.genre = lowerStr b.genre then 1 else 0)
  + (if a.year ≠ 0 ∧ b.year ≠ 0 ∧ ((a.year : Int) - (b.year : Int)).natAbs ≤ 2 then 1 else 0)

/-- Binary search tree of `BSTNode`s (src/data_structures.py); each node keeps
the lower-cased key it was inserted with and a payload. -/
inductive Tree (α : Type) where
  | nil : Tree α
  | node (l : Tree α) (key : String) (val : α) (r : Tree α) : Tree α
deriving DecidableEq

namespace Tree

/-- `BST.insert` walk: smaller keys go left, equal-or-larger go right; the key
passed here is already lower-cased (`BSTNode.__init__` lower-cases it). -/
def insertKey : Tree α → String → α → Tree α
  | .nil, k, v => .node .nil k v .nil
  | .node l key val r, k, v =>
      if strLt k key then .node (insertKey l k v) key val r
      else .node l key val (insertKey r k v)

/-- `BST.insert(key, song)`: the stored key is `key.lower()`. -/
def insert (t : Tree α) (key : String) (v : α) : Tree α :=
  insertKey t (lowerStr key) v

/-- `BST.search` walk on the already lower-cased query. -/
def searchKey : Tree α → String → Option α
  | .nil, _ => none
  | .node l key val r, q =>
      if q = key then some val
      else if strLt q key then searchKey l q else searchKey r q

/-- `BST.search(key)`: lower-cases the query then walks the tree. -/
def search (t : Tree α) (q : String) : Option α :=
  searchKey t (lowerStr q)

/-- `BST.inorder()`. -/
def inorder : Tree α → List α
  | .nil => []
  | .node l _ v r => inorder l ++ v :: inorder r

/-- In-order traversal keeping the stored keys (proof device). -/
def toPairs : Tree α → List (String × α)
  | .nil => []
  | .node l k v r => toPairs l ++ (k, v) :: toPairs r

end Tree

/-- `BST.search_partial(query)`: filter the in-order traversal by
case-insensitive substring match on the title. -/
def searchSubstring (t : Tree Song) (query : String) : List Song :=
  (Tree.inorder t).filter (fun s => strContains (lowerStr s.title) (lowerStr query))

/-- The `Queue` of src/data_structures.py: backing list plus logical head. -/
structure Queue (α : Type) where
  data : List α
  head_idx : Nat
deriving DecidableEq

namespace Queue

def empty : Queue α := ⟨[], 0⟩

/-- `Queue.enqueue`. -/
def enqueue (q : Queue α) (x : α) : Queue α := { q with data := q.data ++ [x] }

/-- `Queue.dequeue`, including the periodic compaction of the backing list. -/
def dequeue (q : Queue α) : Option α × Queue α :=
  match q.data.get? q.head_idx with
  | none => (none, q)
  | some item =>
      let h1 := q.head_idx + 1
      if 32 < h1 ∧ h1 * 2 > q.data.length then (some item, ⟨q.data.drop h1, 0⟩)
      else (some item, { q with head_idx := h1 })

/-- `Queue.peek`. -/
def peek (q : Queue α) : Option α := q.data.get? q.head_idx

/-- `Queue.is_empty`. -/
def is_empty (q : Queue α) : Bool := q.data.length ≤ q.head_idx

/-- `Queue.to_list`: the unconsumed suffix. -/
def to_list (q : Queue α) : List α := q.data.drop q.head_idx

end Queue

/-- Up-Next queue observations, used to compare the implementation with a
plain FIFO list (spec §4.4). -/
inductive QObs (α : Type) where
  | ovoid : QObs α
  | oopt (x : Option α) : QObs α
  | obool (b : Bool) : QObs α
  | olist (l : List α) : QObs α
deriving DecidableEq

/-- Queue operations a client can issue. -/
inductive QOp (α : Type) where
  | enq (x : α)
  | deq
  | qpeek
  | qempty
  | qlist
deriving DecidableEq

/-- One implementation step. -/
def stepQ (q : Queue α) : QOp α → QObs α × Queue α
  | .enq x => (.ovoid, q.enqueue x)
  | .deq => let r := q.dequeue; (.oopt r.1, r.2)
  | .qpeek => (.oopt q.peek, q)
  | .qempty => (.obool q.is_empty, q)
  | .qlist => (.olist q.to_list, q)

/-- Implementation trace: the observations produced by a sequence of
operations starting from queue `q`. -/
def runQ (q : Queue α) : List (QOp α) → List (QObs α)
  | [] => []
  | op :: ops => let r := stepQ q op; r.1 :: runQ r.2 ops

/-- Modelled from the spec: a plain FIFO list ("observationally equivalent to
a plain FIFO list"); dequeue takes the head, enqueue appends at the back. -/
def stepFifo (l : List α) : QOp α → QObs α × List α
  | .enq x => (.ovoid, l ++ [x])
  | .deq =>
      match l with
      | [] => (.oopt none, [])
      | x :: t => (.oopt (some x), t)
  | .qpeek => (.oopt l.head?, l)
  | .qempty => (.obool l.isEmpty, l)
  | .qlist => (.olist l, l)

/-- Specification trace over the plain FIFO list. -/
def runFifo (l : List α) : List (QOp α) → List (QObs α)
  | [] => []
  | op :: ops => let r := stepFifo l op; r.1 :: runFifo r.2 ops

/-! ## The library orchestrator state (MusicLibraryManager) -/

/-- Placeholder record used to make heap lookup total; allocated object ids
always resolve, so this value is never produced on states built by the
library's own operations. -/
def defaultSong : Song := ⟨0, "", "", "", "", 0, 0, "", 0, false⟩

/-- The whole `MusicLibraryManager` state.  Containers hold object ids (oids)
into `heap`, reflecting that the Python structures share mutable `Song`
objects; `history` keeps Python list order (top of the stack at the end). -/
structure LibState where
  heap : List (Nat × Song)
  next_oid : Nat
  sll : List Nat
  genre_mll : List (String × List Nat)
  title_bst : Tree Nat
  history : List Nat
  up_next : Queue Nat
  graph : List (Nat × List Nat)
  playlists : List (String × List Nat)
  song_index : List (Nat × Nat)
  next_song_id : Nat
deriving DecidableEq

/-- Fresh manager state (all structures empty, ids start at 1). -/
def initState : LibState :=
  { heap := [], next_oid := 0, sll := [], genre_mll := [], title_bst := .nil,
    history := [], up_next := .empty, graph := [], playlists := [],
    song_index := [], next_song_id := 1 }

/-- Association-list lookup (Python `dict.get`). -/
def lookupKey (l : List (Nat × α)) (k : Nat) : Option α :=
  (l.find? (fun p => p.1 == k)).map (·.2)

/-- Python `dict[k] = v`: overwrite in place if the key exists, else append. -/
def indexSet (l : List (Nat × Nat)) (k v : Nat) : List (Nat × Nat) :=
  if (l.find? (fun p => p.1 == k)).isSome then
    l.map (fun p => if p.1 == k then (k, v) else p)
  else l ++ [(k, v)]

/-- Remove the first list element satisfying `p` (linked-list unlink). -/
def removeFirst (p : α → Bool) : List α → List α
  | [] => []
  | x :: t => if p x then t else x :: removeFirst p t

/-- Python `del d[k]` on an association list. -/
def removeKey (l : List (Nat × Nat)) (k : Nat) : List (Nat × Nat) :=
  removeFirst (fun p => p.1 == k) l

/-- Dereference an oid in the heap. -/
def heapSong (st : LibState) (oid : Nat) : Song :=
  (lookupKey st.heap oid).getD defaultSong

/-- Overwrite the record stored at `oid` (a Python attribute mutation). -/
def heapSet (h : List (Nat × Song)) (oid : Nat) (s : Song) : List (Nat × Song) :=
  h.map (fun p => if p.1 == oid then (oid, s) else p)

/-- `song.song_id` read through an oid. -/
def songIdAt (st : LibState) (oid : Nat) : Nat := (heapSong st oid).song_id

/-- `SinglyLinkedList.traverse` resolved to records: `get_all_songs`. -/
def get_all_songs (st : LibState) : List Song := st.sll.map (heapSong st)

/-- `MusicLibraryManager.get_song_by_id`. -/
def get_song_by_id (st : LibState) (sid : Nat) : Option Song :=
  (lookupKey st.song_index sid).map (heapSong st)

/-- `MultiLinkedListByGenre.add_song`: find or create the (case-insensitive)
genre header, then append at the end of its song list. -/
def genreAdd (g : List (String × List Nat)) (genre : String) (oid : Nat) :
    List (String × List Nat) :=
  if (g.find? (fun p => lowerStr p.1 == lowerStr genre)).isSome then
    g.map (fun p => if lowerStr p.1 == lowerStr genre then (p.1, p.2 ++ [oid]) else p)
  else g ++ [(genre, [oid])]

/-- `MultiLinkedListByGenre.remove_song`: drop the first matching song node of
every header, then drop headers that became empty. -/
def genreRemove (st : LibState) (g : List (String × List Nat)) (sid : Nat) :
    List (String × List Nat) :=
  (g.map (fun p => (p.1, removeFirst (fun oid => songIdAt st oid == sid) p.2))).filter
    (fun p => !p.2.isEmpty)

/-- `SongGraph.add_vertex`. -/
def addVertex (g : List (Nat × List Nat)) (v : Nat) : List (Nat × List Nat) :=
  if (g.find? (fun p => p.1 == v)).isSome then g else g ++ [(v, [])]

/-- `SongGraph.neighbors`. -/
def graphNeighbors (g : List (Nat × List Nat)) (v : Nat) : List Nat :=
  (lookupKey g v).getD []

/-- Append `b` to the adjacency list of `a` (both keys present). -/
def adjAppend (g : List (Nat × List Nat)) (a b : Nat) : List (Nat × List Nat) :=
  g.map (fun p => if p.1 == a then (p.1, p.2 ++ [b]) else p)

/-- `SongGraph.add_edge`: ignore loops, create both vertices, append each
endpoint to the other's adjacency list unless already present. -/
def addEdge (g : List (Nat × List Nat)) (a b : Nat) : List (Nat × List Nat) :=
  if a = b then g
  else
    let g1 := addVertex (addVertex g a) b
    let g2 := if b ∈ graphNeighbors g1 a then g1 else adjAppend g1 a b
    if a ∈ graphNeighbors g2 b then g2 else adjAppend g2 b a

/-- Inner loop of `_rebuild_graph`: score `a` against every later song. -/
def addEdgesFrom (g : List (Nat × List Nat)) (a : Song) (rest : List Song) :
    List (Nat × List Nat) :=
  rest.foldl
    (fun g b => if 1 ≤ similarityScore a b then addEdge g a.song_id b.song_id else g) g

/-- All ordered pairs `i < j` of `_rebuild_graph`. -/
def rebuildGraphAux : List (Nat × List Nat) → List Song → List (Nat × List Nat)
  | g, [] => g
  | g, a :: rest => rebuildGraphAux (addEdgesFrom g a rest) rest

/-- The songs of the track map in key insertion order
(`self._song_index[ids[i]]`). -/
def indexSongs (st : LibState) : List Song :=
  st.song_index.map (fun p => heapSong st p.2)

/-- `MusicLibraryManager._rebuild_graph`: adds similarity edges for the current
catalog *on top of* whatever `graph` already holds (it never clears it). -/
def rebuild_graph (st : LibState) : LibState :=
  { st with graph := rebuildGraphAux st.graph (indexSongs st) }

/-- Rebuild of the title BST from the master list
(`BST(); for song in get_all_songs(): insert(song.title, song)`). -/
def buildTitleBST (st : LibState) : Tree Nat :=
  st.sll.foldl (fun t oid => t.insert (heapSong st oid).title oid) .nil

/-- Rebuild of the genre structure from the master list. -/
def rebuildGenres (st : LibState) : List (String × List Nat) :=
  st.sll.foldl (fun g oid => genreAdd g (heapSong st oid).genre oid) []

/-- `MusicLibraryManager._add_song`: a fresh object is appended to every
structure; the track map is keyed by the song's current id. -/
def _add_song (st : LibState) (song : Song) : LibState :=
  let oid := st.next_oid
  { st with
    heap := st.heap ++ [(oid, song)]
    next_oid := oid + 1
    sll := st.sll ++ [oid]
    genre_mll := genreAdd st.genre_mll song.genre oid
    title_bst := st.title_bst.insert song.title oid
    graph := addVertex st.graph song.song_id
    song_index := indexSet st.song_index song.song_id oid }

/-- One already-inferred metadata record handed to the ingest path
(the filename scanning itself is excluded glue). -/
structure RawMeta where
  title : String
  artist : String
  album : String
  genre : String
  year : Nat
  path : String
deriving DecidableEq

/-- `MusicLibraryManager.scan_and_build` after metadata inference: resets the
indices, the track map and the id counter (but not queue, history or
playlists), adds every record with a fresh sequential id, then rebuilds the
graph. -/
def ingest (st : LibState) (metas : List RawMeta) : LibState :=
  let st0 := { st with sll := [], genre_mll := [], title_bst := .nil,
                       graph := [], song_index := [], next_song_id := 1 }
  let st1 := metas.foldl
    (fun st m =>
      let song : Song :=
        ⟨st.next_song_id, m.title, m.artist, m.album, m.genre, m.year, 0, m.path, 0, false⟩
      { _add_song st song with next_song_id := st.next_song_id + 1 })
    st0
  rebuild_graph st1

/-- `MusicLibraryManager.update_song`. -/
def update_song (st : LibState) (sid : Nat) (fields : List (String × FieldVal)) :
    Bool × LibState :=
  match lookupKey st.song_index sid with
  | none => (false, st)
  | some oid =>
      let s := heapSong st oid
      let old_title := s.title
      let old_genre := s.genre
      let s2 := fields.foldl setAttr s
      let st1 := { st with heap := heapSet st.heap oid s2 }
      let st2 := if s2.title ≠ old_title then { st1 with title_bst := buildTitleBST st1 } else st1
      let st3 := if s2.genre ≠ old_genre then { st2 with genre_mll := rebuildGenres st2 } else st2
      (true, rebuild_graph st3)

/-- `MusicLibraryManager.delete_song`, in source order: master list, genre
structure, playlists (one `Playlist.remove` each), queue filter, history
filter, track-map delete, title-BST rebuild, graph rebuild from scratch. -/
def delete_song (st : LibState) (sid : Nat) : Bool × LibState :=
  match lookupKey st.song_index sid with
  | none => (false, st)
  | some _ =>
      let st1 := { st with sll := removeFirst (fun oid => songIdAt st oid == sid) st.sll }
      let st2 := { st1 with genre_mll := genreRemove st1 st1.genre_mll sid }
      let pls := st2.playlists.map
        (fun p => (p.1, removeFirst (fun oid => songIdAt st2 oid == sid) p.2))
      let st3 := { st2 with playlists := pls }
      let q := (st3.up_next.to_list).filter (fun oid => !(songIdAt st3 oid == sid))
      let st4 := { st3 with up_next := ⟨q, 0⟩ }
      let hist := st4.history.filter (fun oid => !(songIdAt st4 oid == sid))
      let st5 := { st4 with history := hist }
      let st6 := { st5 with song_index := removeKey st5.song_index sid }
      let st7 := { st6 with title_bst := buildTitleBST st6 }
      let verts := (get_all_songs st7).foldl (fun g s => addVertex g s.song_id) []
      let st8 := { st7 with graph := verts }
      (true, rebuild_graph st8)

/-- `MusicLibraryManager.search_by_title`, as a function of the title BST the
manager holds (here with resolved records as payloads). -/
def search_by_title (t : Tree Song) (query : String) : List Song :=
  match t.search query with
  | some s => [s]
  | none => searchSubstring t query

/-- The title BST built by inserting a list of songs in order (how the
manager builds and rebuilds `title_bst`). -/
def buildBST (L : List Song) : Tree Song :=
  L.foldl (fun t s => t.insert s.title s) .nil

/-- `MusicLibraryManager.create_playlist`. -/
def create_playlist (st : LibState) (name : String) : Bool × LibState :=
  if (st.playlists.find? (fun p => p.1 == name)).isSome then (false, st)
  else (true, { st with playlists := st.playlists ++ [(name, [])] })

/-- `MusicLibraryManager.delete_playlist`. -/
def delete_playlist (st : LibState) (name : String) : Bool × LibState :=
  if (st.playlists.find? (fun p => p.1 == name)).isSome then
    (true, { st with playlists := removeFirst (fun p => p.1 == name) st.playlists })
  else (false, st)

/-- Python truthiness of a `Playlist` lookup: `Playlist` defines `__len__`, so
an *empty* playlist is falsy exactly like a missing one. -/
def plTruthy : Option (String × List Nat) → Bool
  | none => false
  | some p => !p.2.isEmpty

/-- `MusicLibraryManager.add_song_to_playlist`: `if not pl or not s: return
False` — `not pl` is true for a missing *or empty* playlist; on success the
looked-up `Song` object (its oid) is appended. -/
def add_song_to_playlist (st : LibState) (name : String) (sid : Nat) : Bool × LibState :=
  let pl? := st.playlists.find? (fun p => p.1 == name)
  match lookupKey st.song_index sid with
  | none => (false, st)
  | some oid =>
      if plTruthy pl? then
        (true, { st with playlists :=
          st.playlists.map (fun p => if p.1 == name then (p.1, p.2 ++ [oid]) else p) })
      else (false, st)

/-- `MusicLibraryManager.remove_song_from_playlist` (same truthiness). -/
def remove_song_from_playlist (st : LibState) (name : String) (sid : Nat) : Bool × LibState :=
  let pl? := st.playlists.find? (fun p => p.1 == name)
  if plTruthy pl? then
    let pls := st.playlists.map
      (fun p => if p.1 == name
        then (p.1, removeFirst (fun oid => songIdAt st oid == sid) p.2) else p)
    ((pl?.getD ("", [])).2.any (fun oid => songIdAt st oid == sid),
     { st with playlists := pls })
  else (false, st)

/-- `MusicLibraryManager.enqueue_song`. -/
def enqueue_song (st : LibState) (sid : Nat) : Bool × LibState :=
  match lookupKey st.song_index sid with
  | none => (false, st)
  | some oid => (true, { st with up_next := st.up_next.enqueue oid })

/-- `MusicLibraryManager.dequeue_song`. -/
def dequeue_song (st : LibState) : Option Song × LibState :=
  let r := st.up_next.dequeue
  (r.1.map (heapSong st), { st with up_next := r.2 })

/-- `MusicLibraryManager.record_play(song)` for a song of the library: push
the object on the history stack and bump its play count. -/
def record_play (st : LibState) (oid : Nat) : LibState :=
  let s := heapSong st oid
  { st with history := st.history ++ [oid],
            heap := heapSet st.heap oid { s with play_count := s.play_count + 1 } }

/-! ## Playback navigation -/

/-- Python truthiness of `current_song_id` (`None` and `0` are falsy). -/
def truthyNat : Option Nat → Bool
  | none => false
  | some n => !(n == 0)

/-- Python truthiness of `current_playlist_name` (`None` and `""` are falsy). -/
def truthyStr : Option String → Bool
  | none => false
  | some s => !(s == "")

/-- `self.playlists.get(name)`. -/
def lookupPlaylist (st : LibState) (name : String) : Option (List Nat) :=
  (st.playlists.find? (fun p => p.1 == name)).map (·.2)

/-- `Playlist.find_node`: position of the first node whose song has this id. -/
def findNodeIdx (st : LibState) (pl : List Nat) (sid : Nat) : Option Nat :=
  pl.findIdx? (fun oid => songIdAt st oid == sid)

/-- `node.next` of the found node. -/
def playlistSucc (st : LibState) (pl : List Nat) (sid : Nat) : Option Nat :=
  match findNodeIdx st pl sid with
  | some i => pl.get? (i + 1)
  | none => none

/-- `node.prev` of the found node. -/
def playlistPred (st : LibState) (pl : List Nat) (sid : Nat) : Option Nat :=
  match findNodeIdx st pl sid with
  | some i => if i = 0 then none else pl.get? (i - 1)
  | none => none

/-- The playlist-context branch shared by `get_next_song`: returns the
successor's song when the (truthy) context resolves, else nothing.  An empty
playlist is falsy in the source (`if pl:`), which coincides with the failing
node search. -/
def playlistNextSong (st : LibState) (cid : Option Nat) (plname : Option String) :
    Option Song :=
  if truthyStr plname ∧ truthyNat cid then
    match lookupPlaylist st (plname.getD "") with
    | some pl =>
        match playlistSucc st pl (cid.getD 0) with
        | some oid2 => some (heapSong st oid2)
        | none => none
    | none => none
  else none

/-- The playlist-context branch of `get_previous_song`. -/
def playlistPrevSong (st : LibState) (cid : Option Nat) (plname : Option String) :
    Option Song :=
  if truthyStr plname ∧ truthyNat cid then
    match lookupPlaylist st (plname.getD "") with
    | some pl =>
        match playlistPred st pl (cid.getD 0) with
        | some oidp => some (heapSong st oidp)
        | none => none
    | none => none
  else none

/-- `random.choice(l)` with the random draw made explicit as an index. -/
def randChoice (l : List α) (pick : Nat) : Option α := l.get? (pick % l.length)

/-- `MusicLibraryManager.get_next_similar_song`; `shuf` stands for
`random.shuffle` and `pick` for the `random.choice` draw. -/
def get_next_similar_song (st : LibState) (sid : Nat) (shuf : List Nat → List Nat)
    (pick : Nat) : Option Song :=
  let neighbors := shuf (graphNeighbors st.graph sid)
  match (neighbors.filterMap (fun nid => lookupKey st.song_index nid)).head? with
  | some oid => some (heapSong st oid)
  | none => randChoice (get_all_songs st) pick

/-- `MusicLibraryManager.get_next_song`: playlist successor, else dequeue,
else similarity (when the current id is truthy), else a random track. -/
def get_next_song (st : LibState) (cid : Option Nat) (plname : Option String)
    (shuf : List Nat → List Nat) (pick : Nat) : Option Song × LibState :=
  match playlistNextSong st cid plname with
  | some s => (some s, st)
  | none =>
      let r := dequeue_song st
      match r.1 with
      | some s => (some s, r.2)
      | none =>
          if truthyNat cid then
            match get_next_similar_song r.2 (cid.getD 0) shuf pick with
            | some s => (some s, r.2)
            | none => (randChoice (get_all_songs r.2) pick, r.2)
          else (randChoice (get_all_songs r.2) pick, r.2)

/-- `MusicLibraryManager.get_previous_song`: playlist predecessor, else pop
the history stack and return the new top. -/
def get_previous_song (st : LibState) (cid : Option Nat) (plname : Option String) :
    Option Song × LibState :=
  match playlistPrevSong st cid plname with
  | some s => (some s, st)
  | none =>
      if st.history.isEmpty then (none, st)
      else
        let st1 := { st with history := st.history.dropLast }
        match st1.history.getLast? with
        | some oid => (some (heapSong st1 oid), st1)
        | none => (none, st1)

/-! ## Reachable states -/

/-- The orchestrator's mutating entry points (spec §6); `nxt`/`prv` carry the
randomness of the similarity fallback explicitly. -/
inductive Op where
  | ing (metas : List RawMeta)
  | upd (sid : Nat) (fields : List (String × FieldVal))
  | del (sid : Nat)
  | mkpl (name : String)
  | rmpl (name : String)
  | addpl (name : String) (sid : Nat)
  | rempl (name : String) (sid : Nat)
  | enq (sid : Nat)
  | deq
  | play (sid : Nat)
  | nxt (cid : Option Nat) (plname : Option String) (shuf : List Nat → List Nat) (pick : Nat)
  | prv (cid : Option Nat) (plname : Option String)

/-- State transition of one operation (results discarded). -/
def applyOp (st : LibState) : Op → LibState
  | .ing metas => ingest st metas
  | .upd sid fields => (update_song st sid fields).2
  | .del sid => (delete_song st sid).2
  | .mkpl name => (create_playlist st name).2
  | .rmpl name => (delete_playlist st name).2
  | .addpl name sid => (add_song_to_playlist st name sid).2
  | .rempl name sid => (remove_song_from_playlist st name sid).2
  | .enq sid => (enqueue_song st sid).2
  | .deq => (dequeue_song st).2
  | .play sid =>
      match lookupKey st.song_index sid with
      | some oid => record_play st oid
      | none => st
  | .nxt cid plname shuf pick => (get_next_song st cid plname shuf pick).2
  | .prv cid plname => (get_previous_song st cid plname).2

/-- A library state the process can actually be in: every state produced by a
sequence of orchestrator operations from a fresh manager. -/
def Reachable (st : LibState) : Prop :=
  ∃ ops : List Op, st = ops.foldl applyOp initState

/-! ## Proof devices -/

/-- Keys of a tree in in-order. -/
def Tree.keysOf : Tree α → List String
  | .nil => []
  | .node l k _ r => Tree.keysOf l ++ k :: Tree.keysOf r

/-- The search-tree shape invariant the insert walk maintains: keys that
compared smaller went left, all others right. -/
def Tree.Ordered : Tree α → Prop
  | .nil => True
  | .node l key _ r =>
      (∀ x ∈ Tree.keysOf l, strLt x key = true)
      ∧ (∀ x ∈ Tree.keysOf r, strLt x key = false)
      ∧ Tree.Ordered l ∧ Tree.Ordered r

/-- Invariant of every reachable state used for the delete cascade: playlists
are always empty (`add_song_to_playlist` can never append to an empty, hence
falsy, playlist) and track-map keys are distinct (dict semantics). -/
def PLInv (st : LibState) : Prop :=
  (∀ p ∈ st.playlists, p.2 = []) ∧ (st.song_index.map (fun p => p.1)).Nodup

/-! ## Concrete inputs used by witnesses and counterexamples -/

def mAlpha : RawMeta := ⟨"Alpha", "Nova", "", "", 0, "static/music/a.mp3"⟩

def mBeta : RawMeta := ⟨"Beta", "Nova", "", "", 0, "static/music/b.mp3"⟩

def sAlpha : Song := ⟨1, "Alpha", "Nova", "", "", 0, 0, "", 0, false⟩

def sBeta : Song := ⟨2, "Beta", "Nova", "", "", 0, 0, "", 0, false⟩

def sWorld : Song := ⟨3, "World", "", "", "", 0, 0, "", 0, false⟩

/-- Reachable state for the stale-graph scenario: two same-artist tracks, then
the first track's artist is changed away. -/
def stStaleGraph : LibState :=
  [Op.ing [mAlpha, mBeta], Op.upd 1 [("artist", FieldVal.strV "Other")]].foldl applyOp initState

/-- Reachable state after overwriting a track's `song_id` through
`update_song`. -/
def stIdMutated : LibState :=
  [Op.ing [mAlpha], Op.upd 1 [("song_id", FieldVal.natV 2)]].foldl applyOp initState

/-- Reachable state with an empty catalog but a stale queued track: ingest a
track, enqueue it, then rescan an empty source set (the rescan does not clear
the queue). -/
def stStaleQueue : LibState :=
  [Op.ing [mAlpha], Op.enq 1, Op.ing []].foldl applyOp initState

/-- Reachable one-track state used to exercise the delete cascade. -/
def stOneTrack : LibState := [Op.ing [mAlpha]].foldl applyOp initState

/-- A state whose playlist is *named the empty string* and holds two tracks;
`""` is falsy in Python, so the playlist-context branches skip it. -/
def stEmptyName : LibState :=
  { heap := [(0, sAlpha), (1, sBeta)], next_oid := 2, sll := [0, 1],
    genre_mll := [("", [0, 1])], title_bst := .nil, history := [],
    up_next := .empty, graph := [], playlists := [("", [0, 1])],
    song_index := [(1, 0), (2, 1)], next_song_id := 3 }

/-- Like `stEmptyName` but with an ordinarily named playlist. -/
def stNamedPl : LibState :=
  { stEmptyName with playlists := [("Drive", [0, 1])] }

/-! # Theorems -/

/-! ## The Up-Next queue refines a plain FIFO list (C7) -/

theorem to_list_enqueue (q : Queue α) (x : α) (h : q.head_idx ≤ q.data.length) :
    (q.enqueue x).to_list = q.to_list ++ [x] := by
  simp [Queue.enqueue, Queue.to_list, List.drop_append_of_le_length h]

theorem enqueue_inv (q : Queue α) (x : α) (h : q.head_idx ≤ q.data.length) :
    (q.enqueue x).head_idx ≤ (q.enqueue x).data.length := by
  simp [Queue.enqueue]
  omega

theorem dequeue_fst (q : Queue α) : (q.dequeue).1 = q.to_list.head? := by
  rw [Queue.to_list, List.head?_drop, ← List.get?_eq_getElem?]
  unfold Queue.dequeue
  cases hg : q.data.get? q.head_idx with
  | none => rfl
  | some a =>
      dsimp only
      split <;> rfl

theorem dequeue_to_list (q : Queue α) : (q.dequeue).2.to_list = q.to_list.tail := by
  unfold Queue.dequeue
  cases hg : q.data.get? q.head_idx with
  | none =>
      have hlen : q.data.length ≤ q.head_idx := List.get?_eq_none.mp hg
      have : q.to_list = [] := by
        simp [Queue.to_list, List.drop_eq_nil_iff]
        omega
      simp [this]
  | some a =>
      have hlt : q.head_idx < q.data.length := by
        rcases List.get?_eq_some.mp hg with ⟨h', _⟩
        exact h'
      have hdrop : q.data.drop q.head_idx = q.data[q.head_idx] :: q.data.drop (q.head_idx + 1) :=
        List.drop_eq_getElem_cons hlt
      dsimp only
      split
      · simp only [Queue.to_list, List.drop_zero, hdrop, List.tail_cons]
      · simp only [Queue.to_list, hdrop, List.tail_cons]

theorem dequeue_inv (q : Queue α) (h : q.head_idx ≤ q.data.length) :
    (q.dequeue).2.head_idx ≤ (q.dequeue).2.data.length := by
  unfold Queue.dequeue
  cases hg : q.data.get? q.head_idx with
  | none => exact h
  | some a =>
      have hlt : q.head_idx < q.data.length := by
        rcases List.get?_eq_some.mp hg with ⟨h', _⟩
        exact h'
      dsimp only
      split
      · simp
      · simpa using hlt

theorem peek_head (q : Queue α) : q.peek = q.to_list.head? := by
  rw [Queue.to_list, List.head?_drop, ← List.get?_eq_getElem?]
  rfl

theorem is_empty_to_list (q : Queue α) : q.is_empty = q.to_list.isEmpty := by
  by_cases h : q.data.length ≤ q.head_idx
  · have : q.to_list = [] := by
      simp [Queue.to_list, List.drop_eq_nil_iff]
      omega
    simp [Queue.is_empty, this, h]
  · have : q.to_list ≠ [] := by
      simp [Queue.to_list, ne_eq, List.drop_eq_nil_iff]
      omega
    cases hq : q.to_list with
    | nil => exact absurd hq this
    | cons y ys => simp [Queue.is_empty, h]

theorem runQ_eq_runFifo (ops : List (QOp α)) :
    ∀ q : Queue α, q.head_idx ≤ q.data.length → runQ q ops = runFifo q.to_list ops := by
  induction ops with
  | nil => intro q _; rfl
  | cons op ops ih =>
      intro q h
      cases op with
      | enq x =>
          simp only [runQ, runFifo, stepQ, stepFifo]
          rw [ih (q.enqueue x) (enqueue_inv q x h), to_list_enqueue q x h]
      | deq =>
          simp only [runQ, runFifo, stepQ]
          have h1 := dequeue_fst q
          have h2 := dequeue_to_list q
          have h3 := dequeue_inv q h
          rw [ih _ h3, h2]
          cases hl : q.to_list with
          | nil => simp [stepFifo, h1, hl]
          | cons y ys => simp [stepFifo, h1, hl]
      | qpeek =>
          simp only [runQ, runFifo, stepQ, stepFifo]
          rw [ih q h, peek_head]
      | qempty =>
          simp only [runQ, runFifo, stepQ, stepFifo]
          rw [ih q h, is_empty_to_list]
      | qlist =>
          simp only [runQ, runFifo, stepQ, stepFifo]
          rw [ih q h]

/-! ## Title search (C4, C10) -/

theorem lexLt_irrefl (a : List Char) : lexLt a a = false := by
  induction a with
  | nil => rfl
  | cons x xs ih => simp [lexLt, ih]

theorem lexLt_trans {a b c : List Char} (h1 : lexLt a b = true) (h2 : lexLt b c = true) :
    lexLt a c = true := by
  induction a generalizing b c with
  | nil =>
      cases b with
      | nil => simp [lexLt] at h1
      | cons y ys =>
          cases c with
          | nil => simp [lexLt] at h2
          | cons z zs => simp [lexLt]
  | cons x xs ih =>
      cases b with
      | nil => simp [lexLt] at h1
      | cons y ys =>
          cases c with
          | nil => simp [lexLt] at h2
          | cons z zs =>
              simp only [lexLt] at h1 h2 ⊢
              by_cases hxy : x = y
              · subst hxy
                rw [if_pos rfl] at h1
                by_cases hxz : x = z
                · subst hxz
                  rw [if_pos rfl] at h2 ⊢
                  exact ih h1 h2
                · rw [if_neg hxz] at h2 ⊢
                  exact h2
              · rw [if_neg hxy] at h1
                have hlt1 : x < y := of_decide_eq_true h1
                by_cases hyz : y = z
                · subst hyz
                  rw [if_neg hxy]
                  exact decide_eq_true hlt1
                · rw [if_neg hyz] at h2
                  have hlt2 : y < z := of_decide_eq_true h2
                  have hxz : ¬ x = z := by
                    intro he
                    subst he
                    exact absurd (lt_trans hlt1 hlt2) (lt_irrefl x)
                  rw [if_neg hxz]
                  exact decide_eq_true (lt_trans hlt1 hlt2)

theorem strLt_irrefl (a : String) : strLt a a = false := lexLt_irrefl a.data

theorem strLt_trans {a b c : String} (h1 : strLt a b = true) (h2 : strLt b c = true) :
    strLt a c = true := lexLt_trans h1 h2

theorem searchKey_insertKey (t : Tree α) (k : String) (v : α) (q : String) :
    Tree.searchKey (Tree.insertKey t k v) q =
      match Tree.searchKey t q with
      | some r => some r
      | none => if q = k then some v else none := by
  induction t with
  | nil =>
      simp only [Tree.insertKey, Tree.searchKey]
      by_cases hqk : q = k
      · simp [hqk]
      · simp [hqk]
  | node l key val r ihl ihr =>
      simp only [Tree.insertKey]
      by_cases hk : strLt k key = true
      · rw [if_pos hk]
        simp only [Tree.searchKey]
        by_cases hq : q = key
        · simp [hq]
        · rw [if_neg hq, if_neg hq]
          by_cases hql : strLt q key = true
          · rw [if_pos hql, if_pos hql, ihl]
          · rw [if_neg hql, if_neg hql]
            cases hs : Tree.searchKey r q with
            | some s => simp [hs]
            | none =>
                have hqk : ¬ q = k := by
                  intro he
                  subst he
                  exact hql hk
                simp [hs, hqk]
      · rw [if_neg hk]
        simp only [Tree.searchKey]
        by_cases hq : q = key
        · simp [hq]
        · rw [if_neg hq, if_neg hq]
          by_cases hql : strLt q key = true
          · rw [if_pos hql, if_pos hql]
            cases hs : Tree.searchKey l q with
            | some s => simp [hs]
            | none =>
                have hqk : ¬ q = k := by
                  intro he
                  subst he
                  exact hk hql
                simp [hs, hqk]
          · rw [if_neg hql, if_neg hql, ihr]

theorem search_foldl (L : List Song) (t : Tree Song) (q : String) :
    Tree.searchKey (L.foldl (fun t s => t.insert s.title s) t) (lowerStr q) =
      match Tree.searchKey t (lowerStr q) with
      | some r => some r
      | none => L.find? (fun s => lowerStr s.title == lowerStr q) := by
  induction L generalizing t with
  | nil =>
      cases hs : Tree.searchKey t (lowerStr q) <;> simp [hs]
  | cons s rest ih =>
      simp only [List.foldl_cons]
      rw [ih]
      simp only [Tree.insert]
      rw [searchKey_insertKey]
      cases hs : Tree.searchKey t (lowerStr q) with
      | some r => simp [hs]
      | none =>
          simp only [hs]
          by_cases he : lowerStr q = lowerStr s.title
          · rw [if_pos he]
            have : (lowerStr s.title == lowerStr q) = true := by
              rw [he]
              exact beq_self_eq_true _
            simp [List.find?, this]
          · rw [if_neg he]
            have : (lowerStr s.title == lowerStr q) = false := by
              rw [beq_eq_false_iff_ne]
              exact fun he2 => he he2.symm
            simp [List.find?, this]

theorem search_buildBST (L : List Song) (q : String) :
    (buildBST L).search q = L.find? (fun s => lowerStr s.title == lowerStr q) := by
  have h := search_foldl L Tree.nil q
  simpa [Tree.search, buildBST, Tree.searchKey] using h

theorem toPairs_insertKey (t : Tree α) (k : String) (v : α) :
    (Tree.insertKey t k v).toPairs.Perm ((k, v) :: t.toPairs) := by
  induction t with
  | nil => simp [Tree.insertKey, Tree.toPairs]
  | node l key val r ihl ihr =>
      simp only [Tree.insertKey]
      split
      · simp only [Tree.toPairs]
        have h1 : (Tree.toPairs (Tree.insertKey l k v) ++ (key, val) :: Tree.toPairs r).Perm
            (((k, v) :: Tree.toPairs l) ++ (key, val) :: Tree.toPairs r) :=
          ihl.append_right _
        exact h1
      · simp only [Tree.toPairs]
        have h1 : (Tree.toPairs l ++ (key, val) :: Tree.toPairs (Tree.insertKey r k v)).Perm
            (Tree.toPairs l ++ (key, val) :: (k, v) :: Tree.toPairs r) :=
          List.Perm.append_left _ (List.Perm.cons _ ihr)
        refine h1.trans ?_
        have h2 : Tree.toPairs l ++ (key, val) :: (k, v) :: Tree.toPairs r
            = (Tree.toPairs l ++ [(key, val)]) ++ (k, v) :: Tree.toPairs r := by
          simp
        rw [h2]
        refine List.perm_middle.trans ?_
        apply List.Perm.cons
        simp

theorem toPairs_foldl (L : List Song) (t : Tree Song) :
    (L.foldl (fun t s => t.insert s.title s) t).toPairs.Perm
      (L.map (fun s => (lowerStr s.title, s)) ++ t.toPairs) := by
  induction L generalizing t with
  | nil => simp
  | cons s rest ih =>
      simp only [List.foldl_cons, List.map_cons, Tree.insert]
      refine (ih _).trans ?_
      refine (List.Perm.append_left _ (toPairs_insertKey t (lowerStr s.title) s)).trans ?_
      exact List.perm_middle

theorem toPairs_buildBST (L : List Song) :
    (buildBST L).toPairs.Perm (L.map (fun s => (lowerStr s.title, s))) := by
  have h := toPairs_foldl L Tree.nil
  simpa [buildBST, Tree.toPairs] using h

theorem inorder_eq_toPairs (t : Tree α) : t.inorder = t.toPairs.map (fun p => p.2) := by
  induction t <;> simp [Tree.inorder, Tree.toPairs, *]

theorem keysOf_eq_toPairs (t : Tree α) : t.keysOf = t.toPairs.map (fun p => p.1) := by
  induction t <;> simp [Tree.keysOf, Tree.toPairs, *]

theorem inorder_buildBST_perm (L : List Song) : (buildBST L).inorder.Perm L := by
  rw [inorder_eq_toPairs]
  have h := (toPairs_buildBST L).map (fun p => p.2)
  rw [List.map_map] at h
  have he : ∀ M : List Song,
      M.map ((fun p : String × Song => p.2) ∘ fun s => (lowerStr s.title, s)) = M := by
    intro M
    induction M with
    | nil => rfl
    | cons x xs ih =>
        simp only [List.map_cons, ih]
        rfl
  rw [he] at h
  exact h

theorem mem_keysOf_insertKey {t : Tree α} {k x : String} {v : α}
    (h : x ∈ (Tree.insertKey t k v).keysOf) : x = k ∨ x ∈ t.keysOf := by
  rw [keysOf_eq_toPairs] at h
  have hp := (toPairs_insertKey t k v).map (fun p => p.1)
  rw [hp.mem_iff] at h
  rcases List.mem_cons.mp h with h1 | h2
  · exact Or.inl h1
  · right
    rw [keysOf_eq_toPairs]
    exact h2

theorem ordered_insertKey (t : Tree α) (k : String) (v : α) (h : t.Ordered) :
    (Tree.insertKey t k v).Ordered := by
  induction t with
  | nil => simp [Tree.insertKey, Tree.Ordered, Tree.keysOf]
  | node l key val r ihl ihr =>
      obtain ⟨hl, hr, hol, hor⟩ := h
      simp only [Tree.insertKey]
      split
      · rename_i hk
        refine ⟨?_, hr, ihl hol, hor⟩
        intro x hx
        rcases mem_keysOf_insertKey hx with rfl | hx'
        · exact hk
        · exact hl x hx'
      · rename_i hk
        refine ⟨hl, ?_, hol, ihr hor⟩
        intro x hx
        rcases mem_keysOf_insertKey hx with rfl | hx'
        · exact Bool.eq_false_iff.mpr hk
        · exact hr x hx'

theorem ordered_buildBST (L : List Song) : (buildBST L).Ordered := by
  have h : ∀ t : Tree Song, t.Ordered →
      (L.foldl (fun t s => t.insert s.title s) t).Ordered := by
    induction L with
    | nil => intro t h; exact h
    | cons s rest ih =>
        intro t h
        exact ih _ (ordered_insertKey t (lowerStr s.title) s h)
  exact h Tree.nil trivial

theorem strLt_asymm_false {a b : String} (h : strLt a b = true) : strLt b a = false := by
  cases hx : strLt b a with
  | false => rfl
  | true =>
      have h2 := strLt_trans hx h
      rw [strLt_irrefl] at h2
      simp at h2

theorem pairwise_toPairs_of_ordered (t : Tree α) (h : t.Ordered) :
    t.toPairs.Pairwise (fun p q => strLt q.1 p.1 = false) := by
  induction t with
  | nil => simp [Tree.toPairs]
  | node l key val r ihl ihr =>
      obtain ⟨hl, hr, hol, hor⟩ := h
      simp only [Tree.toPairs]
      rw [List.pairwise_append]
      refine ⟨ihl hol, ?_, ?_⟩
      · rw [List.pairwise_cons]
        constructor
        · intro p hp
          apply hr
          rw [keysOf_eq_toPairs]
          exact List.mem_map_of_mem _ hp
        · exact ihr hor
      · intro a ha b hb
        have hak : strLt a.1 key = true := by
          apply hl
          rw [keysOf_eq_toPairs]
          exact List.mem_map_of_mem _ ha
        rcases List.mem_cons.mp hb with hb1 | hbr
        · subst hb1
          show strLt key a.1 = false
          exact strLt_asymm_false hak
        · have hbk : strLt b.1 key = false := by
            apply hr
            rw [keysOf_eq_toPairs]
            exact List.mem_map_of_mem _ hbr
          cases hx : strLt b.1 a.1 with
          | false => rfl
          | true =>
              have h2 := strLt_trans hx hak
              rw [hbk] at h2
              simp at h2

theorem keys_match_buildBST (L : List Song) :
    ∀ p ∈ (buildBST L).toPairs, p.1 = lowerStr p.2.title := by
  intro p hp
  rw [(toPairs_buildBST L).mem_iff] at hp
  rcases List.mem_map.mp hp with ⟨s, _, rfl⟩
  rfl

theorem inorder_buildBST_sorted (L : List Song) :
    (buildBST L).inorder.Pairwise
      (fun a b => strLt (lowerStr b.title) (lowerStr a.title) = false) := by
  have hp := pairwise_toPairs_of_ordered _ (ordered_buildBST L)
  have hk := keys_match_buildBST L
  rw [inorder_eq_toPairs, List.pairwise_map]
  refine hp.imp_of_mem ?_
  intro a b ha hb hR
  rw [← hk a ha, ← hk b hb]
  exact hR

/-- C4: `search_by_title(query)` returns a singleton containing the exact
case-insensitive match when one exists (equivalently, when `find?` over the
catalog in master order is `some`); absent an exact match it returns exactly
the case-insensitive substring matches in the order of the in-order traversal
of the title index, which is a permutation of the catalog sorted by
lower-cased title. -/
theorem search_by_title_exact_else_substring (L : List Song) (q : String) :
    (∀ s, L.find? (fun s => lowerStr s.title == lowerStr q) = some s →
        search_by_title (buildBST L) q = [s] ∧ s ∈ L ∧ lowerStr s.title = lowerStr q) ∧
    (L.find? (fun s => lowerStr s.title == lowerStr q) = none →
        search_by_title (buildBST L) q
          = (buildBST L).inorder.filter (fun s => strContains (lowerStr s.title) (lowerStr q))
        ∧ (search_by_title (buildBST L) q).Perm
            (L.filter (fun s => strContains (lowerStr s.title) (lowerStr q)))
        ∧ (buildBST L).inorder.Perm L
        ∧ (buildBST L).inorder.Pairwise
            (fun a b => strLt (lowerStr b.title) (lowerStr a.title) = false)) := by
  constructor
  · intro s hs
    have h1 := search_buildBST L q
    rw [hs] at h1
    refine ⟨?_, List.mem_of_find?_eq_some hs, ?_⟩
    · simp [search_by_title, h1]
    · have hps := List.find?_some hs
      simp only [beq_iff_eq] at hps
      exact hps
  · intro hn
    have h1 := search_buildBST L q
    rw [hn] at h1
    have hres : search_by_title (buildBST L) q = searchSubstring (buildBST L) q := by
      simp [search_by_title, h1]
    have hperm := inorder_buildBST_perm L
    refine ⟨?_, ?_, hperm, inorder_buildBST_sorted L⟩
    · rw [hres]
      rfl
    · rw [hres]
      exact hperm.filter _

/-- C4 witness: an exact match on a two-song catalog. -/
theorem search_by_title_exact_witness :
    search_by_title (buildBST [sWorld, sAlpha]) "ALPHA" = [sAlpha] :=
  ((search_by_title_exact_else_substring [sWorld, sAlpha] "ALPHA").1 sAlpha (by decide)).1

/-- C10: when two or more tracks have titles equal up to case,
`search_by_title` of that title still returns a singleton, and the returned
track is the earliest-inserted match (first in master order at the last
rebuild): duplicate keys go into the right subtree and the search stops at
the shallowest matching node. -/
theorem search_by_title_duplicate_titles (L : List Song) (q : String) (a : Song)
    (hfirst : L.find? (fun s => lowerStr s.title == lowerStr q) = some a)
    (_hdup : 2 ≤ (L.filter (fun s => lowerStr s.title == lowerStr q)).length) :
    search_by_title (buildBST L) q = [a] := by
  have h1 := search_buildBST L q
  rw [hfirst] at h1
  simp [search_by_title, h1]

/-- C10 witness: two case-insensitively equal titles; the earlier insert is
returned. -/
theorem search_by_title_duplicate_witness :
    search_by_title (buildBST [sAlpha, sWorld, { sAlpha with song_id := 9 }]) "alpha"
      = [sAlpha] :=
  search_by_title_duplicate_titles _ "alpha" sAlpha (by decide) (by decide)

/-- C7: for every sequence of enqueue, dequeue, peek, isEmpty and toList
operations, the Up-Next queue with its logical head index and periodic
compaction produces exactly the observations of a plain FIFO list: dequeue
yields elements in enqueue order, and peek/isEmpty/toList observe only the
unconsumed suffix, with identical results whether or not compaction occurs. -/
theorem queue_observationally_fifo {α : Type} (ops : List (QOp α)) :
    runQ Queue.empty ops = runFifo ([] : List α) ops :=
  runQ_eq_runFifo ops Queue.empty (Nat.le_refl 0)

/-! ## Not-found failures leave the state unchanged (C8) -/

/-- C8: `update_song(id, fields)` and `delete_song(id)` return false exactly
when `id` is absent from the track-by-id map, and whenever they return false
the entire library state (all structures and counters) is unchanged. -/
theorem update_delete_not_found (st : LibState) (sid : Nat)
    (fields : List (String × FieldVal)) :
    ((update_song st sid fields).1 = false ↔ lookupKey st.song_index sid = none) ∧
    ((update_song st sid fields).1 = false → (update_song st sid fields).2 = st) ∧
    ((delete_song st sid).1 = false ↔ lookupKey st.song_index sid = none) ∧
    ((delete_song st sid).1 = false → (delete_song st sid).2 = st) := by
  cases h : lookupKey st.song_index sid with
  | none => simp [update_song, delete_song, h]
  | some oid => simp [update_song, delete_song, h]

/-- C8 witness: an unknown id on the fresh state fails and changes nothing. -/
theorem update_delete_not_found_witness :
    (update_song initState 7 []).1 = false ∧ (update_song initState 7 []).2 = initState ∧
    (delete_song initState 7).1 = false ∧ (delete_song initState 7).2 = initState := by
  have h := update_delete_not_found initState 7 []
  exact ⟨h.1.mpr rfl, h.2.1 (h.1.mpr rfl), h.2.2.1.mpr rfl, h.2.2.2 (h.2.2.1.mpr rfl)⟩

/-! ## nextTrack resolution (C5) -/

theorem randChoice_isSome {l : List α} (h : l ≠ []) (pick : Nat) :
    (randChoice l pick).isSome = true := by
  have hl : 0 < l.length := List.length_pos.mpr h
  have hm : pick % l.length < l.length := Nat.mod_lt _ hl
  rw [randChoice, List.get?_eq_getElem?]
  rw [List.getElem?_eq_getElem hm]
  rfl

theorem dequeue_none_get {q : Queue α} (h : (q.dequeue).1 = none) :
    q.data.get? q.head_idx = none := by
  cases hg : q.data.get? q.head_idx with
  | none => rfl
  | some a =>
      rw [Queue.dequeue, hg] at h
      revert h
      dsimp only
      split <;> simp

theorem randChoice_eq_none {l : List α} {pick : Nat} (h : randChoice l pick = none) :
    l = [] := by
  by_contra hne
  have h2 := randChoice_isSome hne pick
  rw [h] at h2
  simp at h2

theorem dequeue_of_get_none {q : Queue α} (hg : q.data.get? q.head_idx = none) :
    q.dequeue = (none, q) := by
  rw [List.get?_eq_getElem?] at hg
  simp [Queue.dequeue, hg]

theorem dequeue_song_of_get_none {st : LibState}
    (hg : st.up_next.data.get? st.up_next.head_idx = none) :
    dequeue_song st = (none, st) := by
  rw [dequeue_song, dequeue_of_get_none hg]
  rfl

/-- C5 (amended): `get_next_song` resolves in order — (1) the playlist
successor when the truthy playlist context (non-empty name, nonzero id)
finds one; (2) else the dequeued front of the Up-Next queue; (3) else, for a
truthy current id, the similarity suggestion (which exists whenever the
catalog is non-empty); (4) else a random catalog track; a `none` result
implies the catalog is empty, and on an empty catalog with an *empty queue*
`get_next_song(None, None)` returns nothing. -/
theorem next_song_resolution (st : LibState) (cid : Option Nat) (plname : Option String)
    (shuf : List Nat → List Nat) (pick : Nat) :
    (∀ s, playlistNextSong st cid plname = some s →
        get_next_song st cid plname shuf pick = (some s, st)) ∧
    (playlistNextSong st cid plname = none →
      ∀ oid, (st.up_next.dequeue).1 = some oid →
        get_next_song st cid plname shuf pick
          = (some (heapSong st oid), { st with up_next := (st.up_next.dequeue).2 })) ∧
    (playlistNextSong st cid plname = none → (st.up_next.dequeue).1 = none →
      truthyNat cid = true →
        (get_next_song st cid plname shuf pick).1
            = get_next_similar_song st (cid.getD 0) shuf pick
        ∧ (get_all_songs st ≠ [] →
            (get_next_similar_song st (cid.getD 0) shuf pick).isSome = true)) ∧
    (playlistNextSong st cid plname = none → (st.up_next.dequeue).1 = none →
      truthyNat cid = false →
        (get_next_song st cid plname shuf pick).1 = randChoice (get_all_songs st) pick) ∧
    ((get_next_song st cid plname shuf pick).1 = none → get_all_songs st = []) ∧
    (get_all_songs st = [] → st.up_next.is_empty = true → cid = none → plname = none →
      get_next_song st cid plname shuf pick = (none, st)) := by
  refine ⟨?_, ?_, ?_, ?_, ?_, ?_⟩
  · intro s h1
    simp [get_next_song, h1]
  · intro h1 oid hq
    simp [get_next_song, h1, dequeue_song, hq]
  · intro h1 hq ht
    have hg := dequeue_none_get hq
    have hds : dequeue_song st = (none, st) := dequeue_song_of_get_none hg
    constructor
    · simp only [get_next_song, h1, hds, ht, if_true]
      cases hs : get_next_similar_song st (cid.getD 0) shuf pick with
      | some s => simp
      | none =>
          simp only []
          have hrc : randChoice (get_all_songs st) pick = none := by
            cases hh : ((shuf (graphNeighbors st.graph (cid.getD 0))).filterMap
                (fun nid => lookupKey st.song_index nid)).head? with
            | some o =>
                simp only [get_next_similar_song, hh] at hs
                simp at hs
            | none =>
                simp only [get_next_similar_song, hh] at hs
                exact hs
          simp [hrc]
    · intro hne
      cases hh : ((shuf (graphNeighbors st.graph (cid.getD 0))).filterMap
          (fun nid => lookupKey st.song_index nid)).head? with
      | some o => simp [get_next_similar_song, hh]
      | none =>
          simp only [get_next_similar_song, hh]
          exact randChoice_isSome hne pick
  · intro h1 hq ht
    have hg := dequeue_none_get hq
    have hds : dequeue_song st = (none, st) := dequeue_song_of_get_none hg
    simp [get_next_song, h1, hds, ht]
  · intro hnone
    cases hb : playlistNextSong st cid plname with
    | some s => simp [get_next_song, hb] at hnone
    | none =>
        cases hq2 : (st.up_next.dequeue).1 with
        | some oid => simp [get_next_song, hb, dequeue_song, hq2] at hnone
        | none =>
            have hg := dequeue_none_get hq2
            have hds : dequeue_song st = (none, st) := dequeue_song_of_get_none hg
            cases ht2 : truthyNat cid with
            | true =>
                simp only [get_next_song, hb, hds, ht2, if_true] at hnone
                cases hs : get_next_similar_song st (cid.getD 0) shuf pick with
                | some s => rw [hs] at hnone; simp at hnone
                | none =>
                    have hrc : randChoice (get_all_songs st) pick = none := by
                      cases hh : ((shuf (graphNeighbors st.graph (cid.getD 0))).filterMap
                          (fun nid => lookupKey st.song_index nid)).head? with
                      | some o =>
                          simp only [get_next_similar_song, hh] at hs
                          simp at hs
                      | none =>
                          simp only [get_next_similar_song, hh] at hs
                          exact hs
                    exact randChoice_eq_none hrc
            | false =>
                simp only [get_next_song, hb, hds, ht2] at hnone
                simp at hnone
                exact randChoice_eq_none hnone
  · intro hall hemp hcid hpl
    subst hcid
    subst hpl
    rw [Queue.is_empty] at hemp
    have hle : st.up_next.data.length ≤ st.up_next.head_idx := of_decide_eq_true hemp
    have hg : st.up_next.data.get? st.up_next.head_idx = none := List.get?_eq_none.mpr hle
    have hds : dequeue_song st = (none, st) := dequeue_song_of_get_none hg
    have hb : playlistNextSong st none none = none := by
      simp [playlistNextSong, truthyStr]
    simp [get_next_song, hb, hds, truthyNat, hall, randChoice]

/-- C5 witness: the fresh empty library returns nothing for
`get_next_song(None, None)`. -/
theorem next_song_resolution_witness :
    get_next_song initState none none (fun l => l) 0 = (none, initState) :=
  (next_song_resolution initState none none (fun l => l) 0).2.2.2.2.2 rfl rfl rfl rfl

/-- C5 counterexample: a reachable state (ingest one track, enqueue it, then
rescan an empty source set — the rescan does not clear the queue) whose
catalog is empty while `get_next_song(None, None)` still returns the stale
queued track, refuting "no result if and only if the catalog is empty". -/
theorem next_song_empty_catalog_counterexample :
    get_all_songs stStaleQueue = [] ∧
    ((get_next_song stStaleQueue none none (fun l => l) 0).1).map (fun s => s.title)
      = some "Alpha" := by
  exact ⟨by decide, by decide⟩

/-! ## previousTrack resolution (C6) -/

/-- C6 (amended): `get_previous_song` returns the playlist predecessor when
the truthy playlist context (non-empty name, nonzero current id) finds one,
leaving history untouched; otherwise it pops the history stack and returns
the new top, leaving history one entry shorter, and it returns nothing when
history holds fewer than two entries. -/
theorem previous_song_resolution (st : LibState) (cid : Option Nat)
    (plname : Option String) :
    (∀ s, playlistPrevSong st cid plname = some s →
        get_previous_song st cid plname = (some s, st)) ∧
    (∀ nm c pl i oidp, plname = some nm → nm ≠ "" → cid = some c → c ≠ 0 →
        lookupPlaylist st nm = some pl → findNodeIdx st pl c = some i → i ≠ 0 →
        pl.get? (i - 1) = some oidp →
        get_previous_song st cid plname = (some (heapSong st oidp), st)) ∧
    (playlistPrevSong st cid plname = none → st.history ≠ [] →
        (get_previous_song st cid plname).2.history = st.history.dropLast ∧
        (get_previous_song st cid plname).1
          = (st.history.dropLast.getLast?).map (heapSong st)) ∧
    (playlistPrevSong st cid plname = none → st.history.length ≤ 1 →
        (get_previous_song st cid plname).1 = none) ∧
    (playlistPrevSong st cid plname = none → st.history = [] →
        get_previous_song st cid plname = (none, st)) := by
  refine ⟨?_, ?_, ?_, ?_, ?_⟩
  · intro s hb
    simp [get_previous_song, hb]
  · intro nm c pl i oidp hnm hne hc hc0 hpl hidx hi0 hget
    have hb : playlistPrevSong st cid plname = some (heapSong st oidp) := by
      subst hnm
      subst hc
      have htS : truthyStr (some nm) = true := by simp [truthyStr, hne]
      have htN : truthyNat (some c) = true := by simp [truthyNat, hc0]
      rw [List.get?_eq_getElem?] at hget
      simp [playlistPrevSong, htS, htN, hpl, playlistPred, hidx, hi0, hget]
    simp [get_previous_song, hb]
  · intro hb hne
    have hE : st.history.isEmpty = false := by
      cases hh : st.history with
      | nil => exact absurd hh hne
      | cons a t => rfl
    constructor
    · simp only [get_previous_song, hb, hE]
      cases hgl : st.history.dropLast.getLast? <;> simp [hgl]
    · simp only [get_previous_song, hb, hE]
      cases hgl : st.history.dropLast.getLast? <;> simp [hgl, heapSong]
  · intro hb hlen
    cases hh : st.history with
    | nil => simp [get_previous_song, hb, hh]
    | cons a t =>
        cases t with
        | nil => simp [get_previous_song, hb, hh]
        | cons b t2 =>
            rw [hh] at hlen
            simp at hlen
  · intro hb hh
    simp [get_previous_song, hb, hh]

/-- C6 witness: in a playlist named "Drive" holding tracks 1 and 2, the
predecessor of track 2 is returned and history is untouched. -/
theorem previous_song_resolution_witness :
    get_previous_song stNamedPl (some 2) (some "Drive")
      = (some (heapSong stNamedPl 0), stNamedPl) :=
  (previous_song_resolution stNamedPl (some 2) (some "Drive")).2.1 "Drive" 2 [0, 1] 1 0
    rfl (by decide) rfl (by decide) (by decide) (by decide) (by decide) (by decide)

/-- C6 counterexample: the playlist named `""` exists and track 2 has a
predecessor node in it, yet `get_previous_song` skips the falsy name and
returns nothing (the history being empty) instead of the predecessor. -/
theorem previous_song_empty_name_counterexample :
    lookupPlaylist stEmptyName "" = some [0, 1] ∧
    playlistPred stEmptyName [0, 1] 2 = some 0 ∧
    (get_previous_song stEmptyName (some 2) (some "")).1 = none :=
  ⟨by decide, by decide, by decide⟩

/-! ## The delete cascade on reachable states (C1) -/

theorem removeFirst_sublist (p : α → Bool) (l : List α) :
    (removeFirst p l).Sublist l := by
  induction l with
  | nil => exact List.Sublist.refl []
  | cons x t ih =>
      rw [removeFirst]
      split
      · exact List.sublist_cons_self x t
      · exact ih.cons₂ x

theorem lookup_of_not_mem {l : List (Nat × Nat)} {k : Nat}
    (h : k ∉ l.map (fun p => p.1)) : lookupKey l k = none := by
  rw [lookupKey]
  have hf : l.find? (fun p => p.1 == k) = none := by
    rw [List.find?_eq_none]
    intro p hp hbeq
    apply h
    rw [← eq_of_beq hbeq]
    exact List.mem_map_of_mem (fun p => p.1) hp
  rw [hf]
  rfl

theorem lookup_removeKey_self {l : List (Nat × Nat)} {k : Nat}
    (h : (l.map (fun p => p.1)).Nodup) : lookupKey (removeKey l k) k = none := by
  induction l with
  | nil => rfl
  | cons a t ih =>
      rw [List.map_cons, List.nodup_cons] at h
      rw [removeKey, removeFirst]
      by_cases hb : (a.1 == k) = true
      · rw [if_pos hb]
        have hknot : k ∉ t.map (fun p => p.1) := by
          rw [← eq_of_beq hb]
          exact h.1
        exact lookup_of_not_mem hknot
      · rw [if_neg hb]
        rw [lookupKey,
          @List.find?_cons_of_neg _ (fun p => p.1 == k) a (removeFirst (fun p => p.1 == k) t) hb]
        have hr := ih h.2
        rw [removeKey, lookupKey] at hr
        exact hr

theorem nodupKeys_indexSet {l : List (Nat × Nat)} (k v : Nat)
    (h : (l.map (fun p => p.1)).Nodup) :
    ((indexSet l k v).map (fun p => p.1)).Nodup := by
  rw [indexSet]
  split
  · have he : (l.map (fun p => if p.1 == k then (k, v) else p)).map (fun p => p.1)
        = l.map (fun p => p.1) := by
      rw [List.map_map]
      apply List.map_congr_left
      intro p _
      by_cases hb : (p.1 == k) = true
      · simp only [Function.comp_apply, if_pos hb]
        exact (eq_of_beq hb).symm
      · simp only [Function.comp_apply, if_neg hb]
    rw [he]
    exact h
  · rename_i hne
    have hf : l.find? (fun p => p.1 == k) = none := by
      cases hfind : l.find? (fun p => p.1 == k) with
      | none => rfl
      | some p0 => rw [hfind] at hne; simp at hne
    rw [List.map_append, List.nodup_append]
    refine ⟨h, by simp, ?_⟩
    intro a ha hb
    simp only [List.map_cons, List.map_nil, List.mem_singleton] at hb
    rcases List.mem_map.mp ha with ⟨p, hp, hpk⟩
    have hnp := List.find?_eq_none.mp hf p hp
    apply hnp
    rw [hpk, hb]
    exact beq_self_eq_true k

theorem get_next_song_state (st : LibState) (cid : Option Nat) (plname : Option String)
    (shuf : List Nat → List Nat) (pick : Nat) :
    (get_next_song st cid plname shuf pick).2 = st ∨
    (get_next_song st cid plname shuf pick).2
      = { st with up_next := (st.up_next.dequeue).2 } := by
  cases hb : playlistNextSong st cid plname with
  | some s => simp [get_next_song, hb]
  | none =>
      cases hq : (st.up_next.dequeue).1 with
      | some oid =>
          right
          simp [get_next_song, hb, dequeue_song, hq]
      | none =>
          left
          have hds := dequeue_song_of_get_none (dequeue_none_get hq)
          simp only [get_next_song, hb, hds]
          split
          · split <;> rfl
          · rfl

theorem get_previous_song_state (st : LibState) (cid : Option Nat)
    (plname : Option String) :
    (get_previous_song st cid plname).2 = st ∨
    (get_previous_song st cid plname).2 = { st with history := st.history.dropLast } := by
  rw [get_previous_song]
  cases playlistPrevSong st cid plname with
  | some s => exact Or.inl rfl
  | none =>
      dsimp only
      split
      · exact Or.inl rfl
      · cases ({ st with history := st.history.dropLast } : LibState).history.getLast? with
        | some oid => exact Or.inr rfl
        | none => exact Or.inr rfl

theorem update_song_snd_fields (st : LibState) (sid : Nat)
    (fields : List (String × FieldVal)) :
    (update_song st sid fields).2.playlists = st.playlists ∧
    (update_song st sid fields).2.song_index = st.song_index := by
  rw [update_song]
  cases lookupKey st.song_index sid with
  | none => exact ⟨rfl, rfl⟩
  | some oid =>
      dsimp only
      split <;> split <;> exact ⟨rfl, rfl⟩

theorem PLInv_applyOp (st : LibState) (op : Op) (h : PLInv st) : PLInv (applyOp st op) := by
  obtain ⟨hpl, hnd⟩ := h
  cases op with
  | ing metas =>
      rw [applyOp, ingest]
      have hgen : ∀ (ms : List RawMeta) (s : LibState), PLInv s →
          PLInv (ms.foldl (fun st m =>
            let song : Song :=
              ⟨st.next_song_id, m.title, m.artist, m.album, m.genre, m.year, 0, m.path, 0, false⟩
            { _add_song st song with next_song_id := st.next_song_id + 1 }) s) := by
        intro ms
        induction ms with
        | nil => intro s hs; exact hs
        | cons m rest ih =>
            intro s hs
            apply ih
            refine ⟨fun p hp => hs.1 p hp, ?_⟩
            exact nodupKeys_indexSet _ _ hs.2
      exact hgen metas _ ⟨fun p hp => hpl p hp, List.nodup_nil⟩
  | upd sid fields =>
      have he := update_song_snd_fields st sid fields
      rw [applyOp]
      rw [PLInv, he.1, he.2]
      exact ⟨hpl, hnd⟩
  | del sid =>
      rw [applyOp, delete_song]
      cases lookupKey st.song_index sid with
      | none => exact ⟨hpl, hnd⟩
      | some oid =>
          dsimp only
          constructor
          · intro p hp
            rcases List.mem_map.mp hp with ⟨p0, hp0, rfl⟩
            rw [hpl p0 hp0]
            rfl
          · refine List.Nodup.sublist ?_ hnd
            exact (removeFirst_sublist _ _).map _
  | mkpl name =>
      rw [applyOp, create_playlist]
      split
      · exact ⟨hpl, hnd⟩
      · refine ⟨?_, hnd⟩
        intro p hp
        rcases List.mem_append.mp hp with h1 | h2
        · exact hpl p h1
        · rw [List.mem_singleton] at h2
          rw [h2]
  | rmpl name =>
      rw [applyOp, delete_playlist]
      split
      · refine ⟨?_, hnd⟩
        intro p hp
        exact hpl p ((removeFirst_sublist _ _).subset hp)
      · exact ⟨hpl, hnd⟩
  | addpl name sid =>
      rw [applyOp, add_song_to_playlist]
      cases lookupKey st.song_index sid with
      | none => exact ⟨hpl, hnd⟩
      | some oid =>
          dsimp only
          cases hf : st.playlists.find? (fun p => p.1 == name) with
          | none => simp only [plTruthy, hf, if_neg]; exact ⟨hpl, hnd⟩
          | some p0 =>
              have hp0 : p0.2 = [] := hpl p0 (List.mem_of_find?_eq_some hf)
              simp only [plTruthy, hf, hp0, List.isEmpty_nil, Bool.not_true,
                Bool.false_eq_true, if_false, if_neg]
              exact ⟨hpl, hnd⟩
  | rempl name sid =>
      rw [applyOp, remove_song_from_playlist]
      cases hf : st.playlists.find? (fun p => p.1 == name) with
      | none => simp only [plTruthy, hf, if_neg]; exact ⟨hpl, hnd⟩
      | some p0 =>
          have hp0 : p0.2 = [] := hpl p0 (List.mem_of_find?_eq_some hf)
          simp only [plTruthy, hf, hp0, List.isEmpty_nil, Bool.not_true,
            Bool.false_eq_true, if_false, if_neg]
          exact ⟨hpl, hnd⟩
  | enq sid =>
      rw [applyOp, enqueue_song]
      cases lookupKey st.song_index sid with
      | none => exact ⟨hpl, hnd⟩
      | some oid => exact ⟨hpl, hnd⟩
  | deq =>
      exact ⟨hpl, hnd⟩
  | play sid =>
      rw [applyOp]
      cases lookupKey st.song_index sid with
      | none => exact ⟨hpl, hnd⟩
      | some oid => exact ⟨hpl, hnd⟩
  | nxt cid plname shuf pick =>
      rw [applyOp]
      rcases get_next_song_state st cid plname shuf pick with he | he <;> rw [he] <;>
        exact ⟨hpl, hnd⟩
  | prv cid plname =>
      rw [applyOp]
      rcases get_previous_song_state st cid plname with he | he <;> rw [he] <;>
        exact ⟨hpl, hnd⟩

theorem reachable_PLInv (st : LibState) (h : Reachable st) : PLInv st := by
  obtain ⟨ops, rfl⟩ := h
  have hgen : ∀ (ops : List Op) (s : LibState), PLInv s → PLInv (ops.foldl applyOp s) := by
    intro ops
    induction ops with
    | nil => intro s hs; exact hs
    | cons op rest ih =>
        intro s hs
        exact ih _ (PLInv_applyOp s op hs)
  refine hgen ops initState ⟨?_, ?_⟩
  · intro p hp
    simp [initState] at hp
  · simp [initState]

/-- C1: in every reachable library state, once `delete_song(X)` has returned
true no reference to `X` remains: no playlist entry (including duplicates)
resolves to `X`, the Up-Next queue and History stack hold no entry resolving
to `X`, and `get_song_by_id(X)` returns nothing. -/
theorem delete_cascade (st : LibState) (hreach : Reachable st) (sid : Nat)
    (hdel : (delete_song st sid).1 = true) :
    (∀ p ∈ (delete_song st sid).2.playlists, ∀ oid ∈ p.2,
        songIdAt (delete_song st sid).2 oid ≠ sid) ∧
    (∀ oid ∈ ((delete_song st sid).2.up_next.to_list),
        songIdAt (delete_song st sid).2 oid ≠ sid) ∧
    (∀ oid ∈ (delete_song st sid).2.history,
        songIdAt (delete_song st sid).2 oid ≠ sid) ∧
    get_song_by_id (delete_song st sid).2 sid = none := by
  obtain ⟨hpl, hnd⟩ := reachable_PLInv st hreach
  cases hl : lookupKey st.song_index sid with
  | none =>
      rw [delete_song, hl] at hdel
      simp at hdel
  | some oid0 =>
      have e1 : (delete_song st sid).2.playlists
          = st.playlists.map
              (fun p => (p.1, removeFirst (fun oid => songIdAt st oid == sid) p.2)) := by
        rw [delete_song, hl]
        rfl
      have e2 : (delete_song st sid).2.up_next
          = ⟨st.up_next.to_list.filter (fun oid => !(songIdAt st oid == sid)), 0⟩ := by
        rw [delete_song, hl]
        rfl
      have e3 : (delete_song st sid).2.history
          = st.history.filter (fun oid => !(songIdAt st oid == sid)) := by
        rw [delete_song, hl]
        rfl
      have e4 : (delete_song st sid).2.song_index = removeKey st.song_index sid := by
        rw [delete_song, hl]
        rfl
      have e5 : (delete_song st sid).2.heap = st.heap := by
        rw [delete_song, hl]
        rfl
      have hsid : ∀ oid, songIdAt (delete_song st sid).2 oid = songIdAt st oid := by
        intro oid
        rw [songIdAt, songIdAt, heapSong, heapSong, e5]
      refine ⟨?_, ?_, ?_, ?_⟩
      · intro p hp
        rw [e1] at hp
        rcases List.mem_map.mp hp with ⟨p0, hp0, rfl⟩
        intro oid hoid
        rw [hpl p0 hp0] at hoid
        simp [removeFirst] at hoid
      · intro oid hoid
        rw [e2, Queue.to_list, List.drop_zero] at hoid
        have hpred := (List.mem_filter.mp hoid).2
        rw [hsid]
        intro he
        rw [he] at hpred
        simp at hpred
      · intro oid hoid
        rw [e3] at hoid
        have hpred := (List.mem_filter.mp hoid).2
        rw [hsid]
        intro he
        rw [he] at hpred
        simp at hpred
      · rw [get_song_by_id, e4, lookup_removeKey_self hnd]
        rfl

/-- C1 witness: a reachable one-track state; deleting the track succeeds and
the track map no longer resolves it. -/
theorem delete_cascade_witness :
    get_song_by_id (delete_song stOneTrack 1).2 1 = none :=
  (delete_cascade stOneTrack ⟨[Op.ing [mAlpha]], rfl⟩ 1 (by decide)).2.2.2

/-! ## Failing evaluations for the graph-rebuild and id-mutation defects
(C2, C3, C9) -/

/-- C2: failing evaluation — ingest two same-artist tracks (edge created),
then update the first track's artist away: the pairwise score of the two
current records is 0, both tracks still exist, yet the 1–2 edge is still in
the graph, because `update_song` runs `_rebuild_graph` without clearing
`self.graph` first. -/
theorem graph_stale_edge_after_update :
    (update_song ([Op.ing [mAlpha, mBeta]].foldl applyOp initState) 1
        [("artist", FieldVal.strV "Other")]).1 = true ∧
    stStaleGraph.graph = [(1, [2]), (2, [1])] ∧
    similarityScore (heapSong stStaleGraph 0) (heapSong stStaleGraph 1) = 0 ∧
    (get_song_by_id stStaleGraph 1).isSome = true ∧
    (get_song_by_id stStaleGraph 2).isSome = true :=
  ⟨by decide, by decide, by decide, by decide, by decide⟩

/-- C3: failing evaluation — after `update_song(1, song_id := 2)` the Master
Sequence and the Title Index hold id 2 while the track map's key set is
still {1}: the three id sets are no longer equal. -/
theorem id_sets_diverge_after_song_id_update :
    (get_all_songs stIdMutated).map (fun s => s.song_id) = [2] ∧
    (Tree.inorder stIdMutated.title_bst).map (songIdAt stIdMutated) = [2] ∧
    stIdMutated.song_index.map (fun p => p.1) = [1] ∧
    ¬ ((get_all_songs stIdMutated).map (fun s => s.song_id)
        = stIdMutated.song_index.map (fun p => p.1)) :=
  ⟨by decide, by decide, by decide, by decide⟩

/-- C9: failing evaluation — `update_song(1, song_id := 2)` succeeds (the
`hasattr` guard admits `song_id`) and mutates the immutable identity: the
record stored under track-map key 1 now carries `song_id = 2`. -/
theorem song_id_mutated_through_update :
    (update_song ([Op.ing [mAlpha]].foldl applyOp initState) 1
        [("song_id", FieldVal.natV 2)]).1 = true ∧
    (get_song_by_id stIdMutated 1).map (fun s => s.song_id) = some 2 :=
  ⟨by decide, by decide⟩

end SonicWave
